import Mathlib

set_option linter.unusedVariables false

namespace InBalance

/-!
Shallow embedding of `main.go` of the InBalance repository: an HTTP
reverse-proxy load balancer with round-robin backend selection, liveness
skipping, bounded same-backend retries, cross-backend failover and a
periodic health-check loop.

Modelling conventions:

* Go `uint64` arithmetic is `Nat` with an explicit `% UINT64_MOD`.
* `url.URL` is reduced to the two observations the program makes of it:
  `Host` (dialed by the health prober) and `String()` (endpoint identity).
* `Backend.mux` is a lock guarding `Alive`; in the pure state-passing
  model it disappears.  `Backend.ReverseProxy` is the opaque forwarding
  handle; forwarding outcomes are supplied by a failure oracle.
* Go `context.Context` values are a list of key/value pairs searched from
  the innermost binding outward.  Context keys are compared by dynamic
  type and value: the untyped `int` constants `Attempts`/`Retry` used by
  the getters and the `contextKey` string type used by the error handler
  are distinct key types and never compare equal.  `contextKey(Retry)` is
  the Go conversion of the int `1` to a string, i.e. the one-character
  string `"\u0001"`; this conversion is `contextKeyOf`.
-/

/-- The part of Go `url.URL` this program observes: `host` is `URL.Host`
(dialed by `isBackendAlive`) and `str` is `URL.String()` (compared by
`MarkBackendStatus`). -/
structure URL where
  host : String
  str : String
deriving DecidableEq, Repr, Inhabited

/-- Go struct `Backend` from main.go: target URL and liveness flag. -/
structure Backend where
  URL : URL
  Alive : Bool
deriving DecidableEq, Repr, Inhabited

/-- Go `func (b *Backend) SetAlive(alive bool)`. -/
def Backend.SetAlive (b : Backend) (alive : Bool) : Backend :=
  { b with Alive := alive }

/-- Go `func (b *Backend) IsAlive() (alive bool)`. -/
def Backend.IsAlive (b : Backend) : Bool :=
  b.Alive

/-- Go struct `ServerPool` from main.go: ordered backends plus the rotation
cursor `current` (a Go `uint64`, kept below `UINT64_MOD`). -/
structure ServerPool where
  backends : List Backend
  current : Nat
deriving DecidableEq, Repr

/-- Modulus of Go `uint64` arithmetic. -/
def UINT64_MOD : Nat := 2 ^ 64

/-- Go `func (s *ServerPool) AddBackend(backend *Backend)`. -/
def ServerPool.AddBackend (s : ServerPool) (backend : Backend) : ServerPool :=
  { s with backends := s.backends ++ [backend] }

/-- Go `func (s *ServerPool) NextIndex() int`: wrapping increment of the
`uint64` cursor, result taken modulo the pool length.  Returns the
updated pool together with the chosen index. -/
def ServerPool.NextIndex (s : ServerPool) : ServerPool × Nat :=
  let cur := (s.current + 1) % UINT64_MOD
  ({ s with current := cur }, cur % s.backends.length)

/-- Liveness read `s.backends[idx].IsAlive()` with an out-of-range read mapped to
`false` (in scope the index is always in range). -/
def aliveAt (bs : List Backend) (idx : Nat) : Bool :=
  match bs.get? idx with
  | some b => b.IsAlive
  | none => false

/-- The scan loop of `GetNextPeer`: starting at offset `j` from `next`
with `rem` iterations left, return the first offset whose backend
(`(next + j) % len`) is alive. -/
def findAliveAux (bs : List Backend) (next : Nat) : Nat → Nat → Option Nat
  | 0, _ => none
  | rem + 1, j =>
    if aliveAt bs ((next + j) % bs.length) then some j
    else findAliveAux bs next rem (j + 1)

/-- Go `func (s *ServerPool) GetNextPeer() *Backend`: compute `next`, scan a
full cycle for an alive backend; when found at an offset other than the
start, store its index into the cursor.  Returns the updated pool and the
index of the chosen backend (`none` models the `nil` return). -/
def ServerPool.GetNextPeer (s : ServerPool) : ServerPool × Option Nat :=
  let s1 := (s.NextIndex).1
  let next := (s.NextIndex).2
  match findAliveAux s1.backends next s1.backends.length 0 with
  | none => (s1, none)
  | some j =>
    let idx := (next + j) % s1.backends.length
    if j = 0 then (s1, some idx)
    else ({ s1 with current := idx }, some idx)

/-- The loop body of `MarkBackendStatus`: linear scan by `URL.String()`
equality, set the first match and `break`. -/
def markList : List Backend → URL → Bool → List Backend
  | [], _, _ => []
  | b :: rest, u, alive =>
    if b.URL.str = u.str then b.SetAlive alive :: rest
    else b :: markList rest u alive

/-- Go `func (s *ServerPool) MarkBackendStatus(backendURL *url.URL, alive bool)`. -/
def ServerPool.MarkBackendStatus (s : ServerPool) (backendURL : URL) (alive : Bool) :
    ServerPool :=
  { s with backends := markList s.backends backendURL alive }

/-- Go `func isBackendAlive(u *url.URL) bool`: TCP dial of `u.Host` with a
2-second timeout.  `dial host timeoutSeconds` is the oracle for whether
the dial succeeds. -/
def isBackendAlive (dial : String → Nat → Bool) (u : URL) : Bool :=
  dial u.host 2

/-- The loop body of `HealthCheck`: probe every backend in order and set
its liveness to the probe outcome. -/
def healthCheckList (dial : String → Nat → Bool) : List Backend → List Backend
  | [] => []
  | b :: rest => b.SetAlive (isBackendAlive dial b.URL) :: healthCheckList dial rest

/-- Go `func (s *ServerPool) HealthCheck()`, parameterised by the dial
oracle. -/
def ServerPool.HealthCheck (s : ServerPool) (dial : String → Nat → Bool) : ServerPool :=
  { s with backends := healthCheckList dial s.backends }

/-- A Go context key as used by this program: either one of the untyped
`int` constants (`Attempts`, `Retry`) or a value of the local string type
`contextKey`.  Keys of different Go dynamic types are never equal, which
the two constructors capture. -/
inductive CtxKey where
  | intKey : Nat → CtxKey
  | strKey : String → CtxKey
deriving DecidableEq, Repr

/-- The request context: innermost `WithValue` binding first.  All values
stored by this program are Go `int`s. -/
abbrev Context := List (CtxKey × Int)

/-- Lookup `ctx.Value(k)`: innermost binding whose key equals `k`. -/
def ctxValue : Context → CtxKey → Option Int
  | [], _ => none
  | (k', v) :: rest, k => if k' = k then some v else ctxValue rest k

/-- Go constant `Attempts int = iota` (0). -/
def Attempts : Nat := 0

/-- Go constant `Retry` (1). -/
def Retry : Nat := 1

/-- Conversion `contextKey(n)` for the int constant `n`: Go conversion of an integer
to the string type `contextKey` yields the string holding that single
code point. -/
def contextKeyOf (n : Nat) : CtxKey :=
  CtxKey.strKey (String.mk [Char.ofNat n])

/-- Go `func GetAttemptsFromContext(r *http.Request) int`: looks up the int
key `Attempts`, defaulting to 1. -/
def GetAttemptsFromContext (ctx : Context) : Int :=
  match ctxValue ctx (CtxKey.intKey Attempts) with
  | some attempts => attempts
  | none => 1

/-- Go `func GetRetryFromContext(r *http.Request) int`: looks up the int key
`Retry`, defaulting to 0. -/
def GetRetryFromContext (ctx : Context) : Int :=
  match ctxValue ctx (CtxKey.intKey Retry) with
  | some retry => retry
  | none => 0

/-- Where the handling of one request currently stands.  `routing` is the
dispatcher `lb`; `forwarding idx` is `ReverseProxy.ServeHTTP` against
backend `idx`; `handling idx` is that proxy's `ErrorHandler`;
`doneOk`/`doneUnavail` are the two terminal outcomes. -/
inductive Phase where
  | routing
  | forwarding (idx : Nat)
  | handling (idx : Nat)
  | doneOk (idx : Nat)
  | doneUnavail
deriving DecidableEq, Repr

/-- State of one in-flight request: the shared pool, the request context,
the phase, and a tick counting forwarding attempts (consumed by the
failure oracle). -/
structure ReqState where
  pool : ServerPool
  ctx : Context
  phase : Phase
  tick : Nat
deriving DecidableEq, Repr

/-- Observable events of request handling: a `lb` entry (ROUTING), a
forwarding attempt, the 10 ms retry delay, a passive down-marking, an
`http.Error` response, and a successful proxied response. -/
inductive Ev where
  | route
  | forward (idx : Nat)
  | delay (ms : Nat)
  | markDown (u : String)
  | respond (status : Nat) (body : String)
  | served (idx : Nat)
deriving DecidableEq, Repr

/-- URL of the backend at `idx` (the `serverURL` captured by that
backend's proxy closure; always in range along reachable executions). -/
def backendURL (s : ServerPool) (idx : Nat) : URL :=
  match s.backends.get? idx with
  | some b => b.URL
  | none => default

/-- One transition of the request state machine, straight from main.go:

* `routing` is `lb`: read `attempts`; over 3 → 503 "Service not
  available"; else `GetNextPeer`; `nil` → 503; else forward to the peer.
* `forwarding idx`: ask the oracle; failure enters the error handler.
* `handling idx` is the `ErrorHandler` closure: read `retries`; under 3 →
  sleep 10 ms, store `retries+1` under `contextKey(Retry)`, re-serve the
  same proxy; otherwise mark this backend down, read `attempts`, store
  `attempts+1` under `contextKey(Attempts)` and re-enter `lb`. -/
def step (fail : Nat → Nat → Bool) (st : ReqState) : ReqState × List Ev :=
  match st.phase with
  | Phase.routing =>
    let attempts := GetAttemptsFromContext st.ctx
    if attempts > 3 then
      ({ st with phase := Phase.doneUnavail },
       [Ev.route, Ev.respond 503 "Service not available"])
    else
      let pr := st.pool.GetNextPeer
      match pr.2 with
      | some idx =>
        ({ st with pool := pr.1, phase := Phase.forwarding idx }, [Ev.route])
      | none =>
        ({ st with pool := pr.1, phase := Phase.doneUnavail },
         [Ev.route, Ev.respond 503 "Service not available"])
  | Phase.forwarding idx =>
    if fail st.tick idx then
      ({ st with phase := Phase.handling idx, tick := st.tick + 1 }, [Ev.forward idx])
    else
      ({ st with phase := Phase.doneOk idx, tick := st.tick + 1 },
       [Ev.forward idx, Ev.served idx])
  | Phase.handling idx =>
    let retries := GetRetryFromContext st.ctx
    if retries < 3 then
      ({ st with ctx := (contextKeyOf Retry, retries + 1) :: st.ctx,
                 phase := Phase.forwarding idx },
       [Ev.delay 10])
    else
      let u := backendURL st.pool idx
      let pool' := st.pool.MarkBackendStatus u false
      let attempts := GetAttemptsFromContext st.ctx
      ({ st with pool := pool',
                 ctx := (contextKeyOf Attempts, attempts + 1) :: st.ctx,
                 phase := Phase.routing },
       [Ev.markDown u.str])
  | Phase.doneOk _ => (st, [])
  | Phase.doneUnavail => (st, [])

/-- Whether the request has terminated. -/
def isDone : Phase → Bool
  | Phase.doneOk _ => true
  | Phase.doneUnavail => true
  | _ => false

/-- Run the request state machine for at most `fuel` transitions,
collecting the event trace.  Exhausted fuel returns the state reached so
far (the real code simply keeps going). -/
def run (fail : Nat → Nat → Bool) : Nat → ReqState → ReqState × List Ev
  | 0, st => (st, [])
  | fuel + 1, st =>
    if isDone st.phase then (st, [])
    else
      let se := step fail st
      let rest := run fail fuel se.1
      (rest.1, se.2 ++ rest.2)

/-- A fresh inbound request entering the dispatcher. -/
def initState (p : ServerPool) (ctx : Context) : ReqState :=
  { pool := p, ctx := ctx, phase := Phase.routing, tick := 0 }

/-- An inbound request context carries neither counter: the int-keyed
`Attempts` and `Retry` bindings are absent. -/
def noCounterKeys (ctx : Context) : Prop :=
  ctxValue ctx (CtxKey.intKey Attempts) = none ∧
  ctxValue ctx (CtxKey.intKey Retry) = none

/-- Run `k` consecutive sequential `GetNextPeer` calls, collecting the chosen
indices in order. -/
def runSelections (s : ServerPool) : Nat → ServerPool × List (Option Nat)
  | 0 => (s, [])
  | k + 1 =>
    let pr := s.GetNextPeer
    let rest := runSelections pr.1 k
    (rest.1, pr.2 :: rest.2)

/-- Every backend of the list is alive. -/
def allAlive (bs : List Backend) : Prop :=
  ∀ b ∈ bs, b.Alive = true

/-- A forwarding oracle under which every attempt fails (a persistently
unreachable backend). -/
def alwaysFail : Nat → Nat → Bool := fun _ _ => true

/-- Concrete backends for closed evaluations. -/
def backendA : Backend :=
  { URL := { host := "a.example:80", str := "http://a.example" }, Alive := true }

def backendB : Backend :=
  { URL := { host := "b.example:80", str := "http://b.example" }, Alive := true }

def backendC : Backend :=
  { URL := { host := "c.example:80", str := "http://c.example" }, Alive := true }

/-- A one-backend pool. -/
def pool1 : ServerPool :=
  { backends := [backendA], current := 0 }

/-- A three-backend pool with the rotation cursor two shy of the `uint64`
wraparound point. -/
def pool3wrap : ServerPool :=
  { backends := [backendA, backendB, backendC], current := UINT64_MOD - 2 }

/-- A three-backend pool with a small cursor value. -/
def pool3 : ServerPool :=
  { backends := [backendA, backendB, backendC], current := 5 }

/-- A two-backend pool. -/
def poolAB : ServerPool :=
  { backends := [backendA, backendB], current := 7 }

/-- An endpoint URL matching no backend of the concrete pools. -/
def urlZ : URL := { host := "z.example:80", str := "http://z.example" }

/-- A second backend sharing `backendA`'s endpoint string (a duplicate
endpoint in the configuration). -/
def backendAdup : Backend :=
  { URL := { host := "a2.example:80", str := "http://a.example" }, Alive := true }

/-- A pool with two backends whose endpoint strings coincide. -/
def poolDup : ServerPool :=
  { backends := [backendA, backendAdup], current := 0 }

/-- A one-backend pool whose only backend is marked not alive. -/
def poolDead : ServerPool :=
  { backends := [backendA.SetAlive false], current := 0 }

/-- A dial oracle that reaches only `backendB`'s host. -/
def dialBup : String → Nat → Bool := fun h _ => h == "b.example:80"

/-- Number of ROUTING entries (dispatcher `lb` invocations) in a trace. -/
def countRoute : List Ev → Nat
  | [] => 0
  | Ev.route :: rest => countRoute rest + 1
  | _ :: rest => countRoute rest

/-! ## Helper lemmas -/

theorem ctxValue_cons_strKey (s : String) (v : Int) (ctx : Context) (n : Nat) :
    ctxValue ((CtxKey.strKey s, v) :: ctx) (CtxKey.intKey n) =
      ctxValue ctx (CtxKey.intKey n) := by
  simp [ctxValue]

theorem noCounterKeys_cons_strKey (s : String) (v : Int) (ctx : Context)
    (h : noCounterKeys ctx) : noCounterKeys ((CtxKey.strKey s, v) :: ctx) :=
  ⟨by rw [ctxValue_cons_strKey]; exact h.1, by rw [ctxValue_cons_strKey]; exact h.2⟩

theorem noCounterKeys_attempts (ctx : Context) (h : noCounterKeys ctx) :
    GetAttemptsFromContext ctx = 1 := by
  unfold GetAttemptsFromContext
  rw [h.1]

theorem noCounterKeys_retry (ctx : Context) (h : noCounterKeys ctx) :
    GetRetryFromContext ctx = 0 := by
  unfold GetRetryFromContext
  rw [h.2]

/-! ## Claims -/

/-- Claim C6: a request context carrying no `Attempts` binding reads
attempts 1, and one carrying no `Retry` binding reads retries 0 — the
documented defaults for a request entering the dispatcher. -/
theorem context_counter_defaults (ctx : Context) :
    (ctxValue ctx (CtxKey.intKey Attempts) = none → GetAttemptsFromContext ctx = 1) ∧
    (ctxValue ctx (CtxKey.intKey Retry) = none → GetRetryFromContext ctx = 0) :=
  ⟨fun h => by unfold GetAttemptsFromContext; rw [h],
   fun h => by unfold GetRetryFromContext; rw [h]⟩

theorem context_counter_defaults_witness :
    GetAttemptsFromContext [] = 1 ∧ GetRetryFromContext [] = 0 :=
  ⟨(context_counter_defaults []).1 rfl, (context_counter_defaults []).2 rfl⟩

/-- Claim C7: on a pool of length at least 1, `NextIndex` increments the
`uint64` cursor (wrapping at `2^64`) and returns the new cursor value
modulo the pool length, which is always a valid index below the length. -/
theorem nextIndex_valid (s : ServerPool) (h : 0 < s.backends.length) :
    (s.NextIndex).1.current = (s.current + 1) % UINT64_MOD ∧
    (s.NextIndex).1.backends = s.backends ∧
    (s.NextIndex).2 = (s.NextIndex).1.current % s.backends.length ∧
    (s.NextIndex).2 < s.backends.length :=
  ⟨rfl, rfl, rfl, Nat.mod_lt _ h⟩

theorem markList_no_match (u : URL) (a : Bool) :
    ∀ bs : List Backend, (∀ b ∈ bs, b.URL.str ≠ u.str) → markList bs u a = bs := by
  intro bs
  induction bs with
  | nil => intro _; rfl
  | cons b rest ih =>
    intro h
    have hb : b.URL.str ≠ u.str := h b (List.mem_cons_self b rest)
    have hrest : markList rest u a = rest :=
      ih (fun x hx => h x (List.mem_cons_of_mem b hx))
    simp [markList, hb, hrest]

theorem markList_get_first (u : URL) (a : Bool) :
    ∀ (bs : List Backend) (i : Nat) (bi : Backend),
      bs.get? i = some bi → bi.URL.str = u.str →
      (∀ k bk, k < i → bs.get? k = some bk → bk.URL.str ≠ u.str) →
      (markList bs u a).get? i = some (bi.SetAlive a) ∧
      ∀ j, j ≠ i → (markList bs u a).get? j = bs.get? j := by
  intro bs
  induction bs with
  | nil =>
    intro i bi hget
    simp [List.get?] at hget
  | cons b rest ih =>
    intro i bi hget hmatch hfirst
    cases i with
    | zero =>
      have hb : b = bi := by simpa using hget
      subst hb
      constructor
      · simp [markList, hmatch]
      · intro j hj
        cases j with
        | zero => exact absurd rfl hj
        | succ j' => simp [markList, hmatch]
    | succ i' =>
      have hb : b.URL.str ≠ u.str := hfirst 0 b (Nat.succ_pos i') rfl
      have hget' : rest.get? i' = some bi := hget
      have hfirst' : ∀ k bk, k < i' → rest.get? k = some bk → bk.URL.str ≠ u.str :=
        fun k bk hk hgk => hfirst (k + 1) bk (Nat.succ_lt_succ hk) hgk
      have hr := ih i' bi hget' hmatch hfirst'
      constructor
      · simpa [markList, hb] using hr.1
      · intro j hj
        cases j with
        | zero => simp [markList, hb]
        | succ j' =>
          have : j' ≠ i' := fun he => hj (by rw [he])
          simpa [markList, hb] using hr.2 j' this

/-- Claim C9: marking an endpoint matching no backend is a no-op on the
whole pool; marking an endpoint with a unique match sets only that
backend's liveness, leaving every other backend and the cursor unchanged. -/
theorem markBackendStatus_frame (s : ServerPool) (u : URL) (a : Bool) :
    ((∀ b ∈ s.backends, b.URL.str ≠ u.str) → s.MarkBackendStatus u a = s) ∧
    (∀ i bi, s.backends.get? i = some bi → bi.URL.str = u.str →
      (∀ j bj, s.backends.get? j = some bj → j ≠ i → bj.URL.str ≠ u.str) →
      (s.MarkBackendStatus u a).backends.get? i = some (bi.SetAlive a) ∧
      (∀ j, j ≠ i → (s.MarkBackendStatus u a).backends.get? j = s.backends.get? j) ∧
      (s.MarkBackendStatus u a).current = s.current) := by
  constructor
  · intro h
    show ({ s with backends := markList s.backends u a } : ServerPool) = s
    rw [markList_no_match u a s.backends h]
  · intro i bi hget hmatch huniq
    have hfirst : ∀ k bk, k < i → s.backends.get? k = some bk → bk.URL.str ≠ u.str :=
      fun k bk hk hgk => huniq k bk hgk (Nat.ne_of_lt hk)
    have h := markList_get_first u a s.backends i bi hget hmatch hfirst
    exact ⟨h.1, fun j hj => h.2 j hj, rfl⟩

theorem markBackendStatus_frame_witness :
    poolAB.MarkBackendStatus urlZ false = poolAB ∧
    (poolAB.MarkBackendStatus backendB.URL false).backends.get? 1
      = some (backendB.SetAlive false) ∧
    (poolAB.MarkBackendStatus backendB.URL false).backends.get? 0
      = poolAB.backends.get? 0 := by
  have huniq : ∀ j bj, poolAB.backends.get? j = some bj → j ≠ 1 →
      bj.URL.str ≠ backendB.URL.str := by
    intro j bj hg hj
    match j, hg with
    | 0, hg =>
      have : backendA = bj := by simpa [poolAB] using hg
      subst this
      decide
    | 1, _ => exact absurd rfl hj
    | (j + 2), hg => simp [poolAB] at hg
  have h2 := (markBackendStatus_frame poolAB backendB.URL false).2 1 backendB rfl rfl huniq
  refine ⟨?_, h2.1, h2.2.1 0 (by decide)⟩
  exact (markBackendStatus_frame poolAB urlZ false).1 (by decide)

/-- Claim C10: with duplicate endpoint strings in the pool,
`MarkBackendStatus` updates only the first matching backend in
configuration order; a later backend with the same endpoint string is
left unchanged. -/
theorem markBackendStatus_first_duplicate (s : ServerPool) (u : URL) (a : Bool)
    (i j : Nat) (bi bj : Backend) (hij : i < j)
    (hgi : s.backends.get? i = some bi) (hgj : s.backends.get? j = some bj)
    (hmi : bi.URL.str = u.str) (hmj : bj.URL.str = u.str)
    (hfirst : ∀ k bk, k < i → s.backends.get? k = some bk → bk.URL.str ≠ u.str) :
    (s.MarkBackendStatus u a).backends.get? i = some (bi.SetAlive a) ∧
    (s.MarkBackendStatus u a).backends.get? j = some bj := by
  have h := markList_get_first u a s.backends i bi hgi hmi hfirst
  refine ⟨h.1, ?_⟩
  have hne : j ≠ i := Nat.ne_of_gt hij
  show (markList s.backends u a).get? j = some bj
  rw [h.2 j hne]
  exact hgj

theorem markBackendStatus_first_duplicate_witness :
    (poolDup.MarkBackendStatus backendA.URL false).backends.get? 0
      = some (backendA.SetAlive false) ∧
    (poolDup.MarkBackendStatus backendA.URL false).backends.get? 1 = some backendAdup :=
  markBackendStatus_first_duplicate poolDup backendA.URL false 0 1 backendA backendAdup
    (by decide) rfl rfl rfl rfl
    (fun k bk hk _ => absurd hk (Nat.not_lt_zero k))

theorem nextIndex_valid_witness :
    (pool1.NextIndex).1.current = (pool1.current + 1) % UINT64_MOD ∧
    (pool1.NextIndex).1.backends = pool1.backends ∧
    (pool1.NextIndex).2 = (pool1.NextIndex).1.current % pool1.backends.length ∧
    (pool1.NextIndex).2 < pool1.backends.length :=
  nextIndex_valid pool1 (by decide)

theorem healthCheckList_length (dial : String → Nat → Bool) (bs : List Backend) :
    (healthCheckList dial bs).length = bs.length := by
  induction bs with
  | nil => rfl
  | cons b rest ih => simp [healthCheckList, ih]

theorem healthCheckList_get (dial : String → Nat → Bool) :
    ∀ (bs : List Backend) (i : Nat) (b : Backend), bs.get? i = some b →
      (healthCheckList dial bs).get? i = some (b.SetAlive (dial b.URL.host 2)) := by
  intro bs
  induction bs with
  | nil =>
    intro i b h
    simp [List.get?] at h
  | cons hd rest ih =>
    intro i b h
    cases i with
    | zero =>
      have hb : hd = b := by simpa using h
      subst hb
      rfl
    | succ i' => exact ih i' b h

/-- Claim C8: a health-check pass probes every backend of the pool in
order with the fixed 2-second dial timeout and sets its liveness flag to
that probe's outcome; the update at each position depends only on that
backend's own probe, so no probe failure skips any other backend. -/
theorem healthCheck_probes_all (s : ServerPool) (dial : String → Nat → Bool) :
    (s.HealthCheck dial).backends.length = s.backends.length ∧
    (∀ i b, s.backends.get? i = some b →
      (s.HealthCheck dial).backends.get? i = some (b.SetAlive (dial b.URL.host 2))) ∧
    (s.HealthCheck dial).current = s.current :=
  ⟨healthCheckList_length dial s.backends,
   fun i b h => healthCheckList_get dial s.backends i b h, rfl⟩

theorem healthCheck_probes_all_witness :
    (poolAB.HealthCheck dialBup).backends.get? 0
      = some (backendA.SetAlive (dialBup backendA.URL.host 2)) ∧
    (poolAB.HealthCheck dialBup).backends.get? 1
      = some (backendB.SetAlive (dialBup backendB.URL.host 2)) ∧
    backendA.SetAlive (dialBup backendA.URL.host 2) = { backendA with Alive := false } ∧
    backendB.SetAlive (dialBup backendB.URL.host 2) = { backendB with Alive := true } :=
  ⟨(healthCheck_probes_all poolAB dialBup).2.1 0 backendA rfl,
   (healthCheck_probes_all poolAB dialBup).2.1 1 backendB rfl,
   by decide, by decide⟩

theorem findAliveAux_alive (bs : List Backend) (next : Nat) :
    ∀ rem j j', findAliveAux bs next rem j = some j' →
      aliveAt bs ((next + j') % bs.length) = true := by
  intro rem
  induction rem with
  | zero =>
    intro j j' h
    simp [findAliveAux] at h
  | succ rem ih =>
    intro j j' h
    rw [findAliveAux] at h
    by_cases hc : aliveAt bs ((next + j) % bs.length)
    · simp [hc] at h
      subst h
      exact hc
    · simp [hc] at h
      exact ih (j + 1) j' h

theorem findAliveAux_none (bs : List Backend) (next : Nat)
    (hdead : ∀ b ∈ bs, b.IsAlive = false) :
    ∀ rem j, findAliveAux bs next rem j = none := by
  have halive : ∀ idx, aliveAt bs idx = false := by
    intro idx
    unfold aliveAt
    cases hg : bs.get? idx with
    | none => rfl
    | some b => exact hdead b (List.get?_mem hg)
  intro rem
  induction rem with
  | zero => intro j; rfl
  | succ rem ih =>
    intro j
    rw [findAliveAux, halive]
    exact ih (j + 1)

theorem getNextPeer_snd (s : ServerPool) :
    (s.GetNextPeer).2 =
      (findAliveAux s.backends ((s.current + 1) % UINT64_MOD % s.backends.length)
          s.backends.length 0).map
        (fun j => ((s.current + 1) % UINT64_MOD % s.backends.length + j)
          % s.backends.length) := by
  unfold ServerPool.GetNextPeer ServerPool.NextIndex
  dsimp only
  cases hf : findAliveAux s.backends ((s.current + 1) % UINT64_MOD % s.backends.length)
      s.backends.length 0 with
  | none => simp [hf]
  | some j => by_cases hj : j = 0 <;> simp [hf, hj]

/-- Claim C4: whenever `GetNextPeer` returns a backend, that backend's
liveness flag is true (so a not-alive backend is never returned while any
backend is alive); and when every backend's liveness flag is false it
returns none.  The pool-length hypothesis is the documented pool
invariant (the Go code would divide by zero on an empty pool). -/
theorem getNextPeer_alive_or_none (s : ServerPool) (h : 0 < s.backends.length) :
    (∀ idx, (s.GetNextPeer).2 = some idx →
      ∃ b, s.backends.get? idx = some b ∧ b.IsAlive = true) ∧
    ((∀ b ∈ s.backends, b.IsAlive = false) → (s.GetNextPeer).2 = none) := by
  constructor
  · intro idx hidx
    rw [getNextPeer_snd] at hidx
    rcases Option.map_eq_some'.mp hidx with ⟨j, hj, hidx'⟩
    have halive := findAliveAux_alive s.backends _ s.backends.length 0 j hj
    rw [hidx'] at halive
    unfold aliveAt at halive
    cases hg : s.backends.get? idx with
    | none =>
      rw [hg] at halive
      simp at halive
    | some b =>
      rw [hg] at halive
      exact ⟨b, rfl, halive⟩
  · intro hdead
    rw [getNextPeer_snd, findAliveAux_none s.backends _ hdead s.backends.length 0]
    rfl

theorem getNextPeer_alive_or_none_witness :
    (poolDead.GetNextPeer).2 = none ∧
    (∃ b, pool1.backends.get? 0 = some b ∧ b.IsAlive = true) :=
  ⟨(getNextPeer_alive_or_none poolDead (by decide)).2 (by decide),
   (getNextPeer_alive_or_none pool1 (by decide)).1 0 (by decide)⟩

theorem findAliveAux_succ_pos (bs : List Backend) (next rem j : Nat)
    (h : aliveAt bs ((next + j) % bs.length) = true) :
    findAliveAux bs next (rem + 1) j = some j := by
  rw [findAliveAux, h]
  rfl

theorem getNextPeer_allAlive (s : ServerPool) (h1 : 0 < s.backends.length)
    (h2 : s.current + 1 < UINT64_MOD) (ha : allAlive s.backends) :
    s.GetNextPeer =
      ({ s with current := s.current + 1 },
        some ((s.current + 1) % s.backends.length)) := by
  have hcur : (s.current + 1) % UINT64_MOD = s.current + 1 := Nat.mod_eq_of_lt h2
  have hnext : (s.current + 1) % s.backends.length < s.backends.length :=
    Nat.mod_lt _ h1
  have halive : aliveAt s.backends ((s.current + 1) % s.backends.length) = true := by
    unfold aliveAt
    rw [List.get?_eq_get hnext]
    exact ha _ (List.get_mem _ _ _)
  have hfind : findAliveAux s.backends ((s.current + 1) % s.backends.length)
      s.backends.length 0 = some 0 := by
    obtain ⟨m, hm⟩ : ∃ m, s.backends.length = m + 1 :=
      ⟨s.backends.length - 1, by omega⟩
    have h0 : ((s.current + 1) % s.backends.length + 0) % s.backends.length
        = (s.current + 1) % s.backends.length := by
      rw [Nat.add_zero, Nat.mod_eq_of_lt hnext]
    calc findAliveAux s.backends ((s.current + 1) % s.backends.length)
          s.backends.length 0
        = findAliveAux s.backends ((s.current + 1) % s.backends.length) (m + 1) 0 := by
          rw [hm]
      _ = some 0 := findAliveAux_succ_pos _ _ _ _ (by rw [h0]; exact halive)
  unfold ServerPool.GetNextPeer ServerPool.NextIndex
  dsimp only
  rw [hcur, hfind]
  simp [Nat.add_zero, Nat.mod_eq_of_lt hnext]

theorem runSelections_allAlive (k : Nat) :
    ∀ s : ServerPool, 0 < s.backends.length → s.current + k < UINT64_MOD →
      allAlive s.backends →
      (runSelections s k).2 =
        (List.range k).map (fun j => some ((s.current + 1 + j) % s.backends.length)) := by
  induction k with
  | zero => intro s _ _ _; rfl
  | succ k ih =>
    intro s h1 h2 ha
    have hstep := getNextPeer_allAlive s h1 (by omega) ha
    rw [runSelections]
    dsimp only
    rw [hstep]
    dsimp only
    have ihs := ih { s with current := s.current + 1 } h1 (by simp; omega) ha
    rw [ihs]
    rw [List.range_succ_eq_map, List.map_cons, List.map_map]
    dsimp only
    congr 1
    apply List.map_congr_left
    intro j hj
    simp only [Function.comp]
    congr 2
    omega

theorem mod_cycle_hit (n c i : Nat) (h1 : 0 < n) (hi : i < n) :
    (c + (i + n - c % n) % n) % n = i := by
  have hc : c % n < n := Nat.mod_lt _ h1
  have h2 : c + (i + n - c % n) % n ≡ c + (i + n - c % n) [MOD n] :=
    Nat.ModEq.add_left c (Nat.mod_modEq _ _)
  have h3 : c + (i + n - c % n) ≡ c % n + (i + n - c % n) [MOD n] :=
    Nat.ModEq.add_right _ ((Nat.mod_modEq c n).symm)
  have h4 : c % n + (i + n - c % n) = i + n := by omega
  have h5 : c + (i + n - c % n) % n ≡ c % n + (i + n - c % n) [MOD n] := h2.trans h3
  have h6 : (c + (i + n - c % n) % n) % n = (c % n + (i + n - c % n)) % n := h5
  rw [h6, h4, Nat.add_mod_right, Nat.mod_eq_of_lt hi]

/-- Claim C3 counterexample: for the pool `[A, B, C]`, all alive, with the
rotation cursor at `2^64 - 2` (a reachable `uint64` value), the three
consecutive `GetNextPeer` selections are backend 0, backend 0, backend 1:
backend 0 is returned twice and backend 2 never, so N consecutive calls
do not return each backend exactly once. -/
theorem roundRobin_wraparound_cex :
    pool3wrap.backends.length = 3 ∧ allAlive pool3wrap.backends ∧
    (runSelections pool3wrap 3).2 = [some 0, some 0, some 1] ∧
    ¬ (runSelections pool3wrap 3).2.Nodup ∧
    some 2 ∉ (runSelections pool3wrap 3).2 := by
  have h : (runSelections pool3wrap 3).2 = [some 0, some 0, some 1] := by decide
  refine ⟨rfl, ?_, h, ?_, ?_⟩
  · intro b hb
    fin_cases hb <;> rfl
  · rw [h]; decide
  · rw [h]; decide

/-- Claim C3 (amended): provided the raw `uint64` cursor does not wrap
around during the calls (`current + N + 1 < 2^64`), N consecutive
sequential `GetNextPeer` calls on a pool of N alive backends return the
backends at indices `(current + 1 + j) % N` in order — each backend
exactly once, in configuration order starting one past the cursor — and
the (N+1)-th call returns the first of those backends again. -/
theorem roundRobin_fair_no_wraparound (s : ServerPool)
    (h1 : 0 < s.backends.length)
    (h2 : s.current + s.backends.length + 1 < UINT64_MOD)
    (ha : allAlive s.backends) :
    (runSelections s (s.backends.length + 1)).2 =
      (List.range (s.backends.length + 1)).map
        (fun j => some ((s.current + 1 + j) % s.backends.length)) ∧
    ((runSelections s s.backends.length).2).Nodup ∧
    (∀ i, i < s.backends.length → some i ∈ (runSelections s s.backends.length).2) ∧
    (runSelections s (s.backends.length + 1)).2.get? s.backends.length =
      some (some ((s.current + 1) % s.backends.length)) ∧
    (runSelections s (s.backends.length + 1)).2.get? 0 =
      some (some ((s.current + 1) % s.backends.length)) := by
  have hN1 := runSelections_allAlive (s.backends.length + 1) s h1 (by omega) ha
  have hN := runSelections_allAlive s.backends.length s h1 (by omega) ha
  refine ⟨hN1, ?_, ?_, ?_, ?_⟩
  · rw [hN]
    refine List.Nodup.map_on ?_ (List.nodup_range _)
    intro x hx y hy hxy
    rw [List.mem_range] at hx hy
    have hmod : (s.current + 1 + x) % s.backends.length
        = (s.current + 1 + y) % s.backends.length := by
      exact Option.some.inj hxy
    have hcanc : x % s.backends.length = y % s.backends.length :=
      Nat.ModEq.add_left_cancel' (s.current + 1) hmod
    rw [Nat.mod_eq_of_lt hx, Nat.mod_eq_of_lt hy] at hcanc
    exact hcanc
  · intro i hi
    rw [hN, List.mem_map]
    refine ⟨(i + s.backends.length - (s.current + 1) % s.backends.length)
        % s.backends.length,
      List.mem_range.mpr (Nat.mod_lt _ h1), ?_⟩
    exact congrArg some (mod_cycle_hit s.backends.length (s.current + 1) i h1 hi)
  · rw [hN1, List.get?_map, List.get?_range (by omega)]
    have : (s.current + 1 + s.backends.length) % s.backends.length
        = (s.current + 1) % s.backends.length := Nat.add_mod_right _ _
    simp [this]
  · rw [hN1, List.get?_map, List.get?_range (by omega)]
    simp

theorem roundRobin_fair_no_wraparound_witness :
    (runSelections pool3 (pool3.backends.length + 1)).2 =
      (List.range (pool3.backends.length + 1)).map
        (fun j => some ((pool3.current + 1 + j) % pool3.backends.length)) ∧
    ((runSelections pool3 pool3.backends.length).2).Nodup ∧
    (∀ i, i < pool3.backends.length →
      some i ∈ (runSelections pool3 pool3.backends.length).2) ∧
    (runSelections pool3 (pool3.backends.length + 1)).2.get? pool3.backends.length =
      some (some ((pool3.current + 1) % pool3.backends.length)) ∧
    (runSelections pool3 (pool3.backends.length + 1)).2.get? 0 =
      some (some ((pool3.current + 1) % pool3.backends.length)) :=
  roundRobin_fair_no_wraparound pool3 (by decide) (by decide)
    (by intro b hb; fin_cases hb <;> rfl)

theorem run_done (fail : Nat → Nat → Bool) (fuel : Nat) (st : ReqState)
    (h : isDone st.phase = true) : run fail fuel st = (st, []) := by
  cases fuel with
  | zero => rfl
  | succ fuel => rw [run, h]; rfl

theorem run_succ_not_done (fail : Nat → Nat → Bool) (fuel : Nat) (st : ReqState)
    (h : isDone st.phase = false) :
    run fail (fuel + 1) st =
      ((run fail fuel (step fail st).1).1,
        (step fail st).2 ++ (run fail fuel (step fail st).1).2) := by
  rw [run, h]
  rfl

theorem step_ctx (fail : Nat → Nat → Bool) (st : ReqState) :
    (step fail st).1.ctx = st.ctx ∨
    ∃ s v, (step fail st).1.ctx = (CtxKey.strKey s, v) :: st.ctx := by
  obtain ⟨pool, ctx, phase, tick⟩ := st
  cases phase with
  | routing =>
    by_cases h : GetAttemptsFromContext ctx > 3
    · left; simp [step, h]
    · cases hnp : (pool.GetNextPeer).2 <;> left <;> simp [step, h, hnp]
  | forwarding idx =>
    by_cases h : fail tick idx <;> left <;> simp [step, h]
  | handling idx =>
    by_cases h : GetRetryFromContext ctx < 3
    · exact Or.inr ⟨String.mk [Char.ofNat Retry], GetRetryFromContext ctx + 1,
        by simp [step, h, contextKeyOf]⟩
    · exact Or.inr ⟨String.mk [Char.ofNat Attempts], GetAttemptsFromContext ctx + 1,
        by simp [step, h, contextKeyOf]⟩
  | doneOk idx => left; rfl
  | doneUnavail => left; rfl

theorem step_preserves_noCounterKeys (fail : Nat → Nat → Bool) (st : ReqState)
    (h : noCounterKeys st.ctx) : noCounterKeys (step fail st).1.ctx := by
  rcases step_ctx fail st with he | ⟨s, v, he⟩
  · rw [he]; exact h
  · rw [he]; exact noCounterKeys_cons_strKey s v _ h

theorem run_preserves_noCounterKeys (fail : Nat → Nat → Bool) :
    ∀ fuel (st : ReqState), noCounterKeys st.ctx →
      noCounterKeys (run fail fuel st).1.ctx := by
  intro fuel
  induction fuel with
  | zero => intro st h; exact h
  | succ fuel ih =>
    intro st h
    by_cases hd : isDone st.phase
    · rw [run_done fail _ st hd]; exact h
    · have hd' : isDone st.phase = false := by
        revert hd; cases isDone st.phase <;> simp
      rw [run_succ_not_done fail fuel st hd']
      exact ih _ (step_preserves_noCounterKeys fail st h)

theorem countRoute_append (l1 l2 : List Ev) :
    countRoute (l1 ++ l2) = countRoute l1 + countRoute l2 := by
  induction l1 with
  | nil => simp [countRoute]
  | cons e rest ih => cases e <;> simp [countRoute, ih] <;> omega

theorem step_no_reroute (fail : Nat → Nat → Bool) (st : ReqState)
    (h : noCounterKeys st.ctx) (hnd : isDone st.phase = false) :
    (step fail st).1.phase ≠ Phase.routing ∧
    countRoute (step fail st).2 = (if st.phase = Phase.routing then 1 else 0) := by
  obtain ⟨pool, ctx, phase, tick⟩ := st
  cases phase with
  | routing =>
    by_cases hgt : GetAttemptsFromContext ctx > 3
    · simp [step, hgt, countRoute]
    · cases hnp : (pool.GetNextPeer).2 <;> simp [step, hgt, hnp, countRoute]
  | forwarding idx =>
    by_cases hf : fail tick idx <;> simp [step, hf, countRoute]
  | handling idx =>
    have hr : GetRetryFromContext ctx = 0 := noCounterKeys_retry ctx h
    have hlt : GetRetryFromContext ctx < 3 := by rw [hr]; decide
    simp [step, hlt, countRoute]
  | doneOk idx => simp [isDone] at hnd
  | doneUnavail => simp [isDone] at hnd

theorem run_route_count (fail : Nat → Nat → Bool) :
    ∀ fuel (st : ReqState), noCounterKeys st.ctx →
      countRoute (run fail fuel st).2 ≤ (if st.phase = Phase.routing then 1 else 0) := by
  intro fuel
  induction fuel with
  | zero =>
    intro st h
    have : countRoute (run fail 0 st).2 = 0 := rfl
    rw [this]
    exact Nat.zero_le _
  | succ fuel ih =>
    intro st h
    by_cases hd : isDone st.phase
    · rw [run_done fail _ st hd]
      exact Nat.zero_le _
    · have hd' : isDone st.phase = false := by
        revert hd; cases isDone st.phase <;> simp
      rw [run_succ_not_done fail fuel st hd', countRoute_append]
      have hs := step_no_reroute fail st h hd'
      have hrest := ih (step fail st).1 (step_preserves_noCounterKeys fail st h)
      rw [if_neg hs.1] at hrest
      rw [hs.2]
      by_cases hp : st.phase = Phase.routing
      · rw [if_pos hp]; omega
      · rw [if_neg hp]; omega

/-- Claim C2: when the dispatcher `lb` reads an attempts counter above 3
it responds with status 503 and the fixed body "Service not available"
and performs no further forwarding attempt (the complete remaining trace
is exactly the route entry and the response, and the request is
terminated); and for any inbound request (a context carrying neither
counter), the number of ROUTING entries in its whole trace is at most 4. -/
theorem lb_exhausted_unavailable_routing_bounded (fail : Nat → Nat → Bool) :
    (∀ fuel st, st.phase = Phase.routing → 3 < GetAttemptsFromContext st.ctx →
      (run fail (fuel + 1) st).2 = [Ev.route, Ev.respond 503 "Service not available"] ∧
      (run fail (fuel + 1) st).1.phase = Phase.doneUnavail) ∧
    (∀ fuel (p : ServerPool) (ctx : Context), noCounterKeys ctx →
      countRoute (run fail fuel (initState p ctx)).2 ≤ 4) := by
  constructor
  · intro fuel st hp ha
    have hnd : isDone st.phase = false := by rw [hp]; rfl
    have hstep : step fail st =
        ({ st with phase := Phase.doneUnavail },
         [Ev.route, Ev.respond 503 "Service not available"]) := by
      obtain ⟨pool, ctx, phase, tick⟩ := st
      cases hp
      simp [step, ha]
    rw [run_succ_not_done fail fuel st hnd, hstep]
    dsimp only
    rw [run_done fail fuel { st with phase := Phase.doneUnavail } rfl]
    exact ⟨rfl, rfl⟩
  · intro fuel p ctx h
    have hb := run_route_count fail fuel (initState p ctx) h
    have : (if (initState p ctx).phase = Phase.routing then 1 else 0) = 1 := rfl
    rw [this] at hb
    omega

theorem lb_exhausted_unavailable_routing_bounded_witness :
    (run alwaysFail 3 (initState pool1 [(CtxKey.intKey Attempts, 5)])).2
      = [Ev.route, Ev.respond 503 "Service not available"] ∧
    countRoute (run alwaysFail 6 (initState pool1 [])).2 ≤ 4 :=
  ⟨((lb_exhausted_unavailable_routing_bounded alwaysFail).1 2
      (initState pool1 [(CtxKey.intKey Attempts, 5)]) rfl (by decide)).1,
   (lb_exhausted_unavailable_routing_bounded alwaysFail).2 6 pool1 [] ⟨rfl, rfl⟩⟩

/-- Claim C5: for a request whose inbound context carries neither counter,
the same-backend retries counter reads 0 on entry and still reads 0 after
any number of execution steps — in particular, whenever a backend (the
first or one chosen after a failover) begins being forwarded to, the
retry count read from the request is 0. -/
theorem retry_counter_default_throughout (fail : Nat → Nat → Bool) (fuel : Nat)
    (p : ServerPool) (ctx : Context) (h : noCounterKeys ctx) :
    GetRetryFromContext (initState p ctx).ctx = 0 ∧
    GetRetryFromContext (run fail fuel (initState p ctx)).1.ctx = 0 :=
  ⟨noCounterKeys_retry _ h,
   noCounterKeys_retry _ (run_preserves_noCounterKeys fail fuel _ h)⟩

theorem retry_counter_default_throughout_witness :
    GetRetryFromContext (initState pool1 []).ctx = 0 ∧
    GetRetryFromContext (run alwaysFail 5 (initState pool1 [])).1.ctx = 0 :=
  retry_counter_default_throughout alwaysFail 5 pool1 [] ⟨rfl, rfl⟩

/-- Claim C1 (refuted by the code): the error handler stores the retry
counter under the string-typed key `contextKey(Retry)` but reads it back
with the int key `Retry`, so the retry count read from the request is
always the default 0.  Forwarding a fresh request to a single
persistently failing backend therefore performs 6 forwarding attempts in
12 steps (one 10 ms delayed retry of the same backend after every
failure), never marks the backend down, never reaches failover, and has
not terminated — refuting "at most 3 retries before failover". -/
theorem ctx_key_bug_retries_unbounded :
    (run alwaysFail 12 (initState pool1 [])).2 =
      [Ev.route, Ev.forward 0, Ev.delay 10, Ev.forward 0, Ev.delay 10, Ev.forward 0,
       Ev.delay 10, Ev.forward 0, Ev.delay 10, Ev.forward 0, Ev.delay 10, Ev.forward 0] ∧
    isDone (run alwaysFail 12 (initState pool1 [])).1.phase = false ∧
    GetRetryFromContext (run alwaysFail 12 (initState pool1 [])).1.ctx = 0 :=
  ⟨by decide, by decide, by decide⟩

end InBalance
